import Mathlib

/-!
Verification of the hardware-acceleration kernel layer declared in
src/vespalib/src/vespa/vespalib/hwaccelrated/avx2.h.

The header declares class Avx2Accelrator deriving from GenericAccelrator and
overriding three virtual operations: populationCount over unsigned 64-bit
words, and squaredEuclidianDistance for single- and double-precision buffers.
The bodies of both the generic baseline and the Avx2 backend, as well as the
capability dispatcher, live outside the provided sources, so they are modelled
here from the specification: buffers become lists, unsigned 64-bit words
become natural numbers, and floating-point values become exact rationals
(so reduction-order differences vanish and tolerance bounds hold with
difference zero). Loops reading element i for i below a count sz are modelled
as a left-to-right accumulation sumRange over indices, reading out-of-range
positions as a default that never occurs for in-contract calls.
-/

/-- Left-to-right accumulation of f over indices 0, 1, ..., n-1 with a single
accumulator starting at zero: the shape of every kernel loop modelled here. -/
def sumRange {α : Type} [AddCommMonoid α] (f : Nat → α) : Nat → α
  | 0 => 0
  | n + 1 => sumRange f n + f n

/-- Number of set bits in one unsigned 64-bit word (the hardware population
count instruction applied to one word): bit i of x is x / 2 ^ i % 2, summed
over the 64 bit positions of the word. -/
def popcount (x : Nat) : Nat :=
  sumRange (fun i => x / 2 ^ i % 2) 64

theorem sumRange_zero_fn {α : Type} [AddCommMonoid α] (n : Nat) :
    sumRange (fun _ => (0 : α)) n = 0 := by
  induction n with
  | zero => rfl
  | succ n ih => simp [sumRange, ih]

theorem sumRange_add {α : Type} [AddCommMonoid α] (f g : Nat → α) (n : Nat) :
    sumRange (fun i => f i + g i) n = sumRange f n + sumRange g n := by
  induction n with
  | zero => simp [sumRange]
  | succ n ih =>
    simp only [sumRange, ih]
    abel

theorem sumRange_congr {α : Type} [AddCommMonoid α] (f g : Nat → α) (n : Nat)
    (h : ∀ i, i < n → f i = g i) : sumRange f n = sumRange g n := by
  induction n with
  | zero => rfl
  | succ n ih =>
    simp only [sumRange]
    rw [ih (fun i hi => h i (by omega)), h n (by omega)]

theorem sumRange_split {α : Type} [AddCommMonoid α] (f : Nat → α) (m k : Nat) :
    sumRange f (m + k) = sumRange f m + sumRange (fun i => f (m + i)) k := by
  induction k with
  | zero => simp [sumRange]
  | succ k ih =>
    show sumRange f (m + k) + f (m + k) = _
    rw [ih]
    simp [sumRange, add_assoc]

theorem sumRange_transpose {α : Type} [AddCommMonoid α] (f : Nat → α)
    (w b : Nat) :
    sumRange f (w * b) = sumRange (fun j => sumRange (fun i => f (w * i + j)) b) w := by
  induction b with
  | zero => simp [sumRange, sumRange_zero_fn]
  | succ b ih =>
    have h1 : w * (b + 1) = w * b + w := by ring
    rw [h1, sumRange_split, ih, ← sumRange_add]
    apply sumRange_congr
    intro j hj
    simp [sumRange]

/-- Modelled from the spec: the scalar baseline populationCount of
GenericAccelrator (implementation not under src): total number of set bits
across sz consecutive words, accumulated word by word, left to right. -/
def genericPopulationCount (a : List Nat) (sz : Nat) : Nat :=
  sumRange (fun i => popcount (a.getD i 0)) sz

/-- Modelled from the spec: the scalar baseline squaredEuclidianDistance of
GenericAccelrator (implementation not under src): sum of squared differences
over sz paired elements, one accumulator, left to right; element values are
modelled as exact rationals. -/
def genericSquaredEuclidianDistance (a b : List ℚ) (sz : Nat) : ℚ :=
  sumRange (fun i => (a.getD i 0 - b.getD i 0) ^ 2) sz

/-- Modelled from the spec: a related reduction of the baseline operation set
(the spec names dot product as the extension following the same pattern),
inherited unchanged by the Avx2 backend. -/
def genericDotProduct (a b : List ℚ) (sz : Nat) : ℚ :=
  sumRange (fun i => a.getD i 0 * b.getD i 0) sz

/-- Modelled from the spec: the Avx2 populationCount (avx2.cpp not under
src): the aligned portion is processed in blocks of four 64-bit words held in
one 256-bit register, each of the four lanes accumulating its own partial
count over all blocks; the lanes are horizontally reduced at the end and the
scalar remainder pass folds in the words past the last full block. -/
def avx2PopulationCount (a : List Nat) (sz : Nat) : Nat :=
  let w := 4
  let blocks := sz / w
  sumRange (fun j => sumRange (fun i => popcount (a.getD (w * i + j) 0)) blocks) w +
    sumRange (fun i => popcount (a.getD (w * blocks + i) 0)) (sz - w * blocks)

/-- Modelled from the spec: the Avx2 squaredEuclidianDistance (avx2.cpp not
under src), generic in the lane count w (four double-precision or eight
single-precision lanes per 256-bit register): each lane accumulates squared
differences over the aligned blocks, lanes are horizontally reduced, then the
scalar remainder pass handles the tail shorter than w. -/
def avx2SquaredEuclidianDistance (w : Nat) (a b : List ℚ) (sz : Nat) : ℚ :=
  let blocks := sz / w
  sumRange (fun j => sumRange (fun i => (a.getD (w * i + j) 0 - b.getD (w * i + j) 0) ^ 2) blocks) w +
    sumRange (fun i => (a.getD (w * blocks + i) 0 - b.getD (w * blocks + i) 0) ^ 2) (sz - w * blocks)

/-- Modelled from the spec: the capability-polymorphic interface (IAccelrated,
not under src): the operation set every backend implements with identical
signatures, here a record of the operations; the two distance fields are the
two C++ overloads (single- and double-precision element types, both modelled
over exact rationals and both returning the double-precision result type). -/
structure Accelrated where
  populationCount : List Nat → Nat → Nat
  squaredEuclidianDistanceF : List ℚ → List ℚ → Nat → ℚ
  squaredEuclidianDistanceD : List ℚ → List ℚ → Nat → ℚ
  dotProduct : List ℚ → List ℚ → Nat → ℚ

/-- Modelled from the spec: the GenericAccelrator backend, the portable scalar
baseline implementing the full operation set. -/
def GenericAccelrator : Accelrated :=
  { populationCount := genericPopulationCount
    squaredEuclidianDistanceF := genericSquaredEuclidianDistance
    squaredEuclidianDistanceD := genericSquaredEuclidianDistance
    dotProduct := genericDotProduct }

/-- The Avx2Accelrator backend of avx2.h: derives from GenericAccelrator and
overrides exactly populationCount and the two squaredEuclidianDistance
overloads (eight single-precision or four double-precision lanes per 256-bit
register); every other operation is inherited from the baseline. -/
def Avx2Accelrator : Accelrated :=
  { GenericAccelrator with
    populationCount := avx2PopulationCount
    squaredEuclidianDistanceF := avx2SquaredEuclidianDistance 8
    squaredEuclidianDistanceD := avx2SquaredEuclidianDistance 4 }

theorem chunked_eq_sumRange {α : Type} [AddCommMonoid α] (f : Nat → α)
    (w sz : Nat) :
    sumRange (fun j => sumRange (fun i => f (w * i + j)) (sz / w)) w +
      sumRange (fun i => f (w * (sz / w) + i)) (sz - w * (sz / w)) = sumRange f sz := by
  rw [← sumRange_transpose, ← sumRange_split]
  have h : w * (sz / w) + (sz - w * (sz / w)) = sz := by
    have := Nat.mul_div_le sz w
    omega
  rw [h]

theorem avx2PopulationCount_eq (a : List Nat) (sz : Nat) :
    avx2PopulationCount a sz = genericPopulationCount a sz :=
  chunked_eq_sumRange (fun i => popcount (a.getD i 0)) 4 sz

theorem avx2SquaredEuclidianDistance_eq (w : Nat) (a b : List ℚ) (sz : Nat) :
    avx2SquaredEuclidianDistance w a b sz = genericSquaredEuclidianDistance a b sz :=
  chunked_eq_sumRange (fun i => (a.getD i 0 - b.getD i 0) ^ 2) w sz

/-- The spec-side description of squaredEuclidianDistance, written from the
spec words alone: walk the two buffers in step, left to right, one accumulator
collecting the squared difference of each pair. -/
def distLoop : ℚ → List ℚ → List ℚ → ℚ
  | acc, x :: xs, y :: ys => distLoop (acc + (x - y) ^ 2) xs ys
  | acc, _, _ => acc

/-- The spec-side sum of squared element-wise differences over two buffers. -/
def sqDistSpec (a b : List ℚ) : ℚ :=
  distLoop 0 a b

theorem distLoop_acc (a b : List ℚ) : ∀ acc : ℚ,
    distLoop acc a b = acc + distLoop 0 a b := by
  induction a generalizing b with
  | nil => intro acc; cases b <;> simp [distLoop]
  | cons x xs ih =>
    intro acc
    cases b with
    | nil => simp [distLoop]
    | cons y ys =>
      simp only [distLoop]
      rw [ih ys (acc + (x - y) ^ 2), ih ys (0 + (x - y) ^ 2)]
      ring

theorem sumRange_succ_left {α : Type} [AddCommMonoid α] (f : Nat → α)
    (n : Nat) : sumRange f (n + 1) = f 0 + sumRange (fun i => f (i + 1)) n := by
  induction n with
  | zero => simp [sumRange]
  | succ n ih =>
    show sumRange f (n + 1) + f (n + 1) = _
    rw [ih]
    simp [sumRange, add_assoc]

theorem genericSquaredEuclidianDistance_eq_spec (a : List ℚ) :
    ∀ (b : List ℚ) (sz : Nat), a.length = sz → b.length = sz →
      genericSquaredEuclidianDistance a b sz = sqDistSpec a b := by
  induction a with
  | nil =>
    intro b sz ha hb
    subst ha
    have hb0 : b = [] := List.length_eq_zero.mp (by simpa using hb)
    subst hb0
    rfl
  | cons x xs ih =>
    intro b sz ha hb
    subst ha
    cases b with
    | nil => simp at hb
    | cons y ys =>
      simp only [List.length_cons, Nat.succ.injEq] at hb
      unfold genericSquaredEuclidianDistance
      simp only [List.length_cons]
      rw [sumRange_succ_left]
      have htail : sumRange
          (fun i => ((x :: xs).getD (i + 1) 0 - (y :: ys).getD (i + 1) 0) ^ 2)
          xs.length = genericSquaredEuclidianDistance xs ys xs.length := by
        apply sumRange_congr
        intro i hi
        simp [List.getD_cons_succ]
      rw [htail, ih ys xs.length rfl hb]
      show (x - y) ^ 2 + sqDistSpec xs ys = sqDistSpec (x :: xs) (y :: ys)
      unfold sqDistSpec
      show (x - y) ^ 2 + distLoop 0 xs ys = distLoop (0 + (x - y) ^ 2) xs ys
      rw [distLoop_acc xs ys (0 + (x - y) ^ 2), zero_add]

/-- Modelled from the spec: the closed set of backend identities the
dispatcher can hand out (the scalar baseline and the Avx2 tier declared in
avx2.h). -/
inductive BackendId where
  | generic
  | avx2
deriving DecidableEq

/-- The backend implementation behind each identity. -/
def backendOf : BackendId → Accelrated
  | BackendId.generic => GenericAccelrator
  | BackendId.avx2 => Avx2Accelrator

/-- Modelled from the spec: the immutable capability descriptor computed once
by the detector, recording which instruction-set tiers the processor
supports. -/
structure CapabilityDescriptor where
  hasAvx2 : Bool

/-- Modelled from the spec: backend selection (dispatcher code not under
src): pick the highest-ranked backend whose required extension is present,
falling back to the scalar baseline when none is. -/
def selectBackend (c : CapabilityDescriptor) : BackendId :=
  if c.hasAvx2 then BackendId.avx2 else BackendId.generic

/-- Modelled from the spec: one request for the backend handle against the
dispatcher state (none is Unresolved, some b is Resolved at b). An unresolved
dispatcher runs the detector and caches the selection; a resolved one returns
the cached handle unchanged. -/
def requestHandle (c : CapabilityDescriptor) :
    Option BackendId → Option BackendId × BackendId
  | none => (some (selectBackend c), selectBackend c)
  | some b => (some b, b)

/-- Modelled from the spec: a serialization of n concurrent first-time
requests: each request atomically reads and updates the dispatcher state, and
the list collects the backend identity each requester observes. -/
def runRequests (c : CapabilityDescriptor) : Option BackendId → Nat → List BackendId
  | _, 0 => []
  | s, n + 1 =>
    let r := requestHandle c s
    r.2 :: runRequests c r.1 n

theorem runRequests_resolved (c : CapabilityDescriptor) (b : BackendId) :
    ∀ n : Nat, runRequests c (some b) n = List.replicate n b := by
  intro n
  induction n with
  | zero => rfl
  | succ n ih => simp [runRequests, requestHandle, ih, List.replicate]

theorem sumRange_bits_eq_digits_sum :
    ∀ (k x : Nat), x < 2 ^ k →
      sumRange (fun i => x / 2 ^ i % 2) k = (Nat.digits 2 x).sum := by
  intro k
  induction k with
  | zero =>
    intro x hx
    have hx0 : x = 0 := by omega
    subst hx0
    simp [sumRange]
  | succ k ih =>
    intro x hx
    rcases Nat.eq_zero_or_pos x with hx0 | hx0
    · subst hx0
      rw [sumRange_congr (fun i => 0 / 2 ^ i % 2) (fun _ => 0) (k + 1)
        (by intro i hi; simp), sumRange_zero_fn]
      simp
    · rw [sumRange_succ_left, Nat.digits_def' (by norm_num : (1 : Nat) < 2) hx0,
        List.sum_cons]
      have hdiv : x / 2 < 2 ^ k := by
        have h2 : (2 : Nat) ^ (k + 1) = 2 ^ k * 2 := pow_succ 2 k
        omega
      have hshift : sumRange (fun i => x / 2 ^ (i + 1) % 2) k =
          sumRange (fun i => (x / 2) / 2 ^ i % 2) k := by
        apply sumRange_congr
        intro i hi
        rw [pow_succ, mul_comm, Nat.div_div_eq_div_mul]
      simp only [pow_zero, Nat.div_one]
      rw [hshift, ih (x / 2) hdiv]

theorem popcount_eq_digits_sum (x : Nat) (hx : x < 2 ^ 64) :
    popcount x = (Nat.digits 2 x).sum :=
  sumRange_bits_eq_digits_sum 64 x hx

theorem genericPopulationCount_congr (a a2 : List Nat) (sz : Nat)
    (h : ∀ i, i < sz → a.getD i 0 = a2.getD i 0) :
    genericPopulationCount a sz = genericPopulationCount a2 sz :=
  sumRange_congr _ _ sz (fun i hi => by rw [h i hi])

theorem genericSquaredEuclidianDistance_congr (x y x2 y2 : List ℚ) (sz : Nat)
    (hx : ∀ i, i < sz → x.getD i 0 = x2.getD i 0)
    (hy : ∀ i, i < sz → y.getD i 0 = y2.getD i 0) :
    genericSquaredEuclidianDistance x y sz = genericSquaredEuclidianDistance x2 y2 sz :=
  sumRange_congr _ _ sz (fun i hi => by rw [hx i hi, hy i hi])

theorem genericDotProduct_congr (x y x2 y2 : List ℚ) (sz : Nat)
    (hx : ∀ i, i < sz → x.getD i 0 = x2.getD i 0)
    (hy : ∀ i, i < sz → y.getD i 0 = y2.getD i 0) :
    genericDotProduct x y sz = genericDotProduct x2 y2 sz :=
  sumRange_congr _ _ sz (fun i hi => by rw [hx i hi, hy i hi])

/-- Claim C1: the Avx2 backend output equals the scalar baseline output on
every input: exactly for populationCount, and within any nonnegative
tolerance for squaredEuclidianDistance in both precisions; since the
equations hold for every input length sz, they hold in particular for every
remainder length 0 to W-1 beyond an aligned block. -/
theorem avx2_backend_matches_baseline :
    (∀ (a : List Nat) (sz : Nat),
      Avx2Accelrator.populationCount a sz = GenericAccelrator.populationCount a sz) ∧
    (∀ (x y : List ℚ) (sz : Nat) (eps : ℚ), 0 ≤ eps →
      |Avx2Accelrator.squaredEuclidianDistanceF x y sz -
        GenericAccelrator.squaredEuclidianDistanceF x y sz| ≤ eps) ∧
    (∀ (x y : List ℚ) (sz : Nat) (eps : ℚ), 0 ≤ eps →
      |Avx2Accelrator.squaredEuclidianDistanceD x y sz -
        GenericAccelrator.squaredEuclidianDistanceD x y sz| ≤ eps) := by
  refine ⟨fun a sz => avx2PopulationCount_eq a sz, ?_, ?_⟩
  · intro x y sz eps heps
    show |avx2SquaredEuclidianDistance 8 x y sz - genericSquaredEuclidianDistance x y sz| ≤ eps
    rw [avx2SquaredEuclidianDistance_eq, sub_self, abs_zero]
    exact heps
  · intro x y sz eps heps
    show |avx2SquaredEuclidianDistance 4 x y sz - genericSquaredEuclidianDistance x y sz| ≤ eps
    rw [avx2SquaredEuclidianDistance_eq, sub_self, abs_zero]
    exact heps

theorem avx2_backend_matches_baseline_witness :
    |Avx2Accelrator.squaredEuclidianDistanceD [3, 1, 4, 1, 5] [2, 7, 1, 8, 2] 5 -
      GenericAccelrator.squaredEuclidianDistanceD [3, 1, 4, 1, 5] [2, 7, 1, 8, 2] 5| ≤ 0 :=
  avx2_backend_matches_baseline.2.2 [3, 1, 4, 1, 5] [2, 7, 1, 8, 2] 5 0 le_rfl

/-- Claim C2: on both backends and both precisions, squaredEuclidianDistance
over two equal-length buffers of count elements returns the sum of squared
element-wise differences computed by a single accumulator left to right, and
in particular gives 4 on the single-element buffers [3] and [1]. -/
theorem squaredEuclidianDistance_functional_contract :
    (∀ B : Accelrated, B = GenericAccelrator ∨ B = Avx2Accelrator →
      ∀ (x y : List ℚ) (sz : Nat), x.length = sz → y.length = sz →
        B.squaredEuclidianDistanceF x y sz = sqDistSpec x y ∧
        B.squaredEuclidianDistanceD x y sz = sqDistSpec x y) ∧
    GenericAccelrator.squaredEuclidianDistanceF [3] [1] 1 = 4 ∧
    GenericAccelrator.squaredEuclidianDistanceD [3] [1] 1 = 4 ∧
    Avx2Accelrator.squaredEuclidianDistanceF [3] [1] 1 = 4 ∧
    Avx2Accelrator.squaredEuclidianDistanceD [3] [1] 1 = 4 := by
  refine ⟨?_, ?_, ?_, ?_, ?_⟩
  · intro B hB x y sz hx hy
    rcases hB with rfl | rfl
    · exact ⟨genericSquaredEuclidianDistance_eq_spec x y sz hx hy,
        genericSquaredEuclidianDistance_eq_spec x y sz hx hy⟩
    · constructor
      · show avx2SquaredEuclidianDistance 8 x y sz = sqDistSpec x y
        rw [avx2SquaredEuclidianDistance_eq]
        exact genericSquaredEuclidianDistance_eq_spec x y sz hx hy
      · show avx2SquaredEuclidianDistance 4 x y sz = sqDistSpec x y
        rw [avx2SquaredEuclidianDistance_eq]
        exact genericSquaredEuclidianDistance_eq_spec x y sz hx hy
  · norm_num [GenericAccelrator, genericSquaredEuclidianDistance, sumRange]
  · norm_num [GenericAccelrator, genericSquaredEuclidianDistance, sumRange]
  · show avx2SquaredEuclidianDistance 8 [3] [1] 1 = 4
    rw [avx2SquaredEuclidianDistance_eq]
    norm_num [genericSquaredEuclidianDistance, sumRange]
  · show avx2SquaredEuclidianDistance 4 [3] [1] 1 = 4
    rw [avx2SquaredEuclidianDistance_eq]
    norm_num [genericSquaredEuclidianDistance, sumRange]

theorem squaredEuclidianDistance_functional_contract_witness :
    Avx2Accelrator.squaredEuclidianDistanceD [1, 2, 3, 4, 5] [0, 2, 1, 4, 9] 5 =
      sqDistSpec [1, 2, 3, 4, 5] [0, 2, 1, 4, 9] :=
  (squaredEuclidianDistance_functional_contract.1 Avx2Accelrator (Or.inr rfl)
    [1, 2, 3, 4, 5] [0, 2, 1, 4, 9] 5 rfl rfl).2

/-- Claim C3: on both backends, populationCount over count unsigned 64-bit
words returns the total number of set bits across those words (the sum of
the base-two digit sums of each word), and in particular returns 64 on the
one-word all-ones buffer and 0 on two zero words. -/
theorem populationCount_functional_contract :
    (∀ (a : List Nat) (sz : Nat), (∀ i, i < sz → a.getD i 0 < 2 ^ 64) →
      GenericAccelrator.populationCount a sz =
        sumRange (fun i => (Nat.digits 2 (a.getD i 0)).sum) sz ∧
      Avx2Accelrator.populationCount a sz =
        sumRange (fun i => (Nat.digits 2 (a.getD i 0)).sum) sz) ∧
    GenericAccelrator.populationCount [0xFFFFFFFFFFFFFFFF] 1 = 64 ∧
    Avx2Accelrator.populationCount [0xFFFFFFFFFFFFFFFF] 1 = 64 ∧
    GenericAccelrator.populationCount [0, 0] 2 = 0 ∧
    Avx2Accelrator.populationCount [0, 0] 2 = 0 := by
  refine ⟨?_, by decide, by decide, by decide, by decide⟩
  intro a sz h
  have hgen : genericPopulationCount a sz =
      sumRange (fun i => (Nat.digits 2 (a.getD i 0)).sum) sz :=
    sumRange_congr _ _ sz (fun i hi => popcount_eq_digits_sum (a.getD i 0) (h i hi))
  refine ⟨hgen, ?_⟩
  show avx2PopulationCount a sz = _
  rw [avx2PopulationCount_eq]
  exact hgen

theorem populationCount_functional_contract_witness :
    GenericAccelrator.populationCount [5, 12] 2 =
      sumRange (fun i => (Nat.digits 2 ([5, 12].getD i 0)).sum) 2 :=
  (populationCount_functional_contract.1 [5, 12] 2 (by decide)).1

/-- Claim C4: on both backends, both operations accept count zero and return
zero, whatever the contents of the buffers. -/
theorem zero_length_contract :
    ∀ (a : List Nat) (x y : List ℚ),
      GenericAccelrator.populationCount a 0 = 0 ∧
      Avx2Accelrator.populationCount a 0 = 0 ∧
      GenericAccelrator.squaredEuclidianDistanceF x y 0 = 0 ∧
      GenericAccelrator.squaredEuclidianDistanceD x y 0 = 0 ∧
      Avx2Accelrator.squaredEuclidianDistanceF x y 0 = 0 ∧
      Avx2Accelrator.squaredEuclidianDistanceD x y 0 = 0 := by
  intro a x y
  refine ⟨rfl, ?_, rfl, rfl, ?_, ?_⟩
  · show avx2PopulationCount a 0 = 0
    rw [avx2PopulationCount_eq]
    rfl
  · show avx2SquaredEuclidianDistance 8 x y 0 = 0
    rw [avx2SquaredEuclidianDistance_eq]
    rfl
  · show avx2SquaredEuclidianDistance 4 x y 0 = 0
    rw [avx2SquaredEuclidianDistance_eq]
    rfl

/-- Claim C5: on both backends, the result of every operation depends only on
the first count elements of each input buffer: two calls whose buffers agree
on the first count positions return the same result, and no position at or
beyond count is ever read by the model. -/
theorem result_depends_only_on_declared_length (B : Accelrated)
    (hB : B = GenericAccelrator ∨ B = Avx2Accelrator)
    (a a2 : List Nat) (x y x2 y2 : List ℚ) (sz : Nat)
    (ha : ∀ i, i < sz → a.getD i 0 = a2.getD i 0)
    (hx : ∀ i, i < sz → x.getD i 0 = x2.getD i 0)
    (hy : ∀ i, i < sz → y.getD i 0 = y2.getD i 0) :
    B.populationCount a sz = B.populationCount a2 sz ∧
    B.squaredEuclidianDistanceF x y sz = B.squaredEuclidianDistanceF x2 y2 sz ∧
    B.squaredEuclidianDistanceD x y sz = B.squaredEuclidianDistanceD x2 y2 sz ∧
    B.dotProduct x y sz = B.dotProduct x2 y2 sz := by
  rcases hB with rfl | rfl
  · exact ⟨genericPopulationCount_congr a a2 sz ha,
      genericSquaredEuclidianDistance_congr x y x2 y2 sz hx hy,
      genericSquaredEuclidianDistance_congr x y x2 y2 sz hx hy,
      genericDotProduct_congr x y x2 y2 sz hx hy⟩
  · refine ⟨?_, ?_, ?_, genericDotProduct_congr x y x2 y2 sz hx hy⟩
    · show avx2PopulationCount a sz = avx2PopulationCount a2 sz
      rw [avx2PopulationCount_eq, avx2PopulationCount_eq]
      exact genericPopulationCount_congr a a2 sz ha
    · show avx2SquaredEuclidianDistance 8 x y sz = avx2SquaredEuclidianDistance 8 x2 y2 sz
      rw [avx2SquaredEuclidianDistance_eq, avx2SquaredEuclidianDistance_eq]
      exact genericSquaredEuclidianDistance_congr x y x2 y2 sz hx hy
    · show avx2SquaredEuclidianDistance 4 x y sz = avx2SquaredEuclidianDistance 4 x2 y2 sz
      rw [avx2SquaredEuclidianDistance_eq, avx2SquaredEuclidianDistance_eq]
      exact genericSquaredEuclidianDistance_congr x y x2 y2 sz hx hy

theorem result_depends_only_on_declared_length_witness :
    Avx2Accelrator.populationCount [7, 9, 1000] 2 =
      Avx2Accelrator.populationCount [7, 9, 555] 2 :=
  (result_depends_only_on_declared_length Avx2Accelrator (Or.inr rfl)
    [7, 9, 1000] [7, 9, 555] [] [] [] [] 2
    (by decide) (fun i hi => rfl) (fun i hi => rfl)).1

/-- Claim C6: on both backends, two calls of the same operation with
identical inputs yield identical results; the operations are pure functions
of their arguments, with no internal state and no side effects in the
model. -/
theorem backend_determinism (B : Accelrated)
    (hB : B = GenericAccelrator ∨ B = Avx2Accelrator)
    (a a2 : List Nat) (x y x2 y2 : List ℚ) (sz sz2 : Nat)
    (ha : a = a2) (hx : x = x2) (hy : y = y2) (hsz : sz = sz2) :
    B.populationCount a sz = B.populationCount a2 sz2 ∧
    B.squaredEuclidianDistanceF x y sz = B.squaredEuclidianDistanceF x2 y2 sz2 ∧
    B.squaredEuclidianDistanceD x y sz = B.squaredEuclidianDistanceD x2 y2 sz2 ∧
    B.dotProduct x y sz = B.dotProduct x2 y2 sz2 := by
  subst ha
  subst hx
  subst hy
  subst hsz
  rcases hB with rfl | rfl <;> exact ⟨rfl, rfl, rfl, rfl⟩

theorem backend_determinism_witness :
    Avx2Accelrator.populationCount [6, 7] 2 = Avx2Accelrator.populationCount [6, 7] 2 :=
  (backend_determinism Avx2Accelrator (Or.inr rfl)
    [6, 7] [6, 7] [1] [2] [1] [2] 2 2 rfl rfl rfl rfl).1

/-- Claim C7: backend selection never fails: when the required extension is
absent it selects the scalar baseline, and in any serialization of
concurrent first-time requests against an unresolved dispatcher every
request observes the same fully determined backend identity, the one the
selector picks for the detected capabilities. -/
theorem dispatcher_selection_contract :
    (∀ c : CapabilityDescriptor, c.hasAvx2 = false →
      selectBackend c = BackendId.generic) ∧
    (∀ c : CapabilityDescriptor,
      selectBackend c = BackendId.avx2 ∨ selectBackend c = BackendId.generic) ∧
    (∀ (c : CapabilityDescriptor) (n : Nat) (obs : BackendId),
      obs ∈ runRequests c none n → obs = selectBackend c) := by
  refine ⟨?_, ?_, ?_⟩
  · intro c hc
    simp [selectBackend, hc]
  · intro c
    by_cases hc : c.hasAvx2 <;> simp [selectBackend, hc]
  · intro c n obs hobs
    cases n with
    | zero => simp [runRequests] at hobs
    | succ n =>
      simp only [runRequests, requestHandle] at hobs
      rw [runRequests_resolved c (selectBackend c) n] at hobs
      rcases List.mem_cons.mp hobs with h | h
      · exact h
      · exact List.eq_of_mem_replicate h

theorem dispatcher_selection_contract_witness :
    selectBackend ⟨false⟩ = BackendId.generic ∧
    BackendId.avx2 = selectBackend ⟨true⟩ :=
  ⟨dispatcher_selection_contract.1 ⟨false⟩ rfl,
    dispatcher_selection_contract.2.2 ⟨true⟩ 3 BackendId.avx2 (by decide)⟩

/-- Claim C9: Avx2Accelrator derives from GenericAccelrator and overrides
exactly the three declared operations, binding them to the Avx2 kernels;
every other operation of the interface, here the inherited dot product
reduction, is the very implementation of the generic baseline and so behaves
identically to it. -/
theorem avx2_overrides_exactly_three :
    Avx2Accelrator.populationCount = avx2PopulationCount ∧
    Avx2Accelrator.squaredEuclidianDistanceF = avx2SquaredEuclidianDistance 8 ∧
    Avx2Accelrator.squaredEuclidianDistanceD = avx2SquaredEuclidianDistance 4 ∧
    Avx2Accelrator.dotProduct = GenericAccelrator.dotProduct ∧
    ∀ (x y : List ℚ) (sz : Nat),
      Avx2Accelrator.dotProduct x y sz = GenericAccelrator.dotProduct x y sz :=
  ⟨rfl, rfl, rfl, rfl, fun _ _ _ => rfl⟩
